import Mathlib

/-!
Verification of the VolView excerpt sources: the generic utility helpers
(array partitioning and chunking), the segment-list component's store edits,
and the polygon tool's rasterization path.  JavaScript arrays are embedded as
`List`, numbers as `ℤ`/`ℚ`/`ℕ` as appropriate, and nullable values as
`Option`.  JS truthiness is made explicit wherever the source relies on it
(`0`, `''` and `null` are falsy).
-/

set_option autoImplicit false

namespace VolView

namespace Utils

/-- `partition` from the utility module: iterates over the array with
`forEach`, pushing each element onto the first list of the pair when the
predicate holds and onto the second otherwise.  The push loop is rendered as a
left fold over the input list. -/
def partition {T : Type} (predicate : T → Bool) (arr : List T) :
    List T × List T :=
  arr.foldl
    (fun partitioned val =>
      if predicate val then (partitioned.1 ++ [val], partitioned.2)
      else (partitioned.1, partitioned.2 ++ [val]))
    ([], [])

theorem partition_foldl {T : Type} (p : T → Bool) (arr : List T) :
    ∀ acc : List T × List T,
      arr.foldl
        (fun partitioned val =>
          if p val then (partitioned.1 ++ [val], partitioned.2)
          else (partitioned.1, partitioned.2 ++ [val])) acc
        = (acc.1 ++ arr.filter p, acc.2 ++ arr.filter fun v => ! p v) := by
  induction arr with
  | nil => intro acc; simp
  | cons a l ih =>
    intro acc
    by_cases h : p a
    · simp [h, ih]
    · simp [h, ih]

theorem length_filter_add_length_filter_not {T : Type} (p : T → Bool)
    (xs : List T) :
    (xs.filter p).length + (xs.filter fun v => ! p v).length = xs.length := by
  induction xs with
  | nil => simp
  | cons a l ih =>
    by_cases h : p a <;> simp [h, List.filter_cons] <;> omega

/-- Claim C3: `partition(p, xs)` returns the pair of the elements satisfying
`p` and the elements not satisfying `p`, each in their original relative
order (i.e. the two components are the corresponding filters of `xs`), and
the two lengths sum to the length of `xs`. -/
theorem partition_spec {T : Type} (p : T → Bool) (xs : List T) :
    (partition p xs).1 = xs.filter p ∧
    (partition p xs).2 = (xs.filter fun v => ! p v) ∧
    (partition p xs).1.length + (partition p xs).2.length = xs.length := by
  have h := partition_foldl p xs ([], [])
  unfold partition
  rw [h]
  refine ⟨by simp, by simp, ?_⟩
  simp only [List.nil_append]
  exact length_filter_add_length_filter_not p xs

/-- `chunk` from the utility module:
`Array.from({length: Math.ceil(arr.length / size)}, (_, i) => arr.slice(i*size, i*size+size))`.
For an integral `size ≥ 1`, `Math.ceil(n / size)` is `(n + size - 1) / size`
in truncated natural division, and `slice(start, start+size)` is
`take size` after `drop start`. -/
def chunk {T : Type} (arr : List T) (size : ℕ) : List (List T) :=
  (List.range ((arr.length + size - 1) / size)).map
    fun i => (arr.drop (i * size)).take size

theorem chunk_count_succ (n size : ℕ) (hs : 1 ≤ size) (hn : 0 < n) :
    (n + size - 1) / size = (n - size + size - 1) / size + 1 := by
  rcases Nat.lt_or_ge n size with h | h
  · have h1 : n - size = 0 := Nat.sub_eq_zero_of_le (le_of_lt h)
    rw [h1]
    have h2 : (0 + size - 1) / size = 0 := Nat.div_eq_of_lt (by omega)
    rw [h2]
    have h3 : n + size - 1 = (n - 1) + size := by omega
    rw [h3, Nat.add_div_right _ (by omega)]
    have h4 : (n - 1) / size = 0 := Nat.div_eq_of_lt (by omega)
    omega
  · have e1 : n - size + size - 1 = n - 1 := by omega
    have e2 : n + size - 1 = (n - 1) + size := by omega
    rw [e1, e2, Nat.add_div_right _ (by omega)]

theorem chunk_nil {T : Type} (size : ℕ) (hs : 1 ≤ size) :
    chunk ([] : List T) size = [] := by
  have h : (0 + size - 1) / size = 0 := Nat.div_eq_of_lt (by omega)
  simp only [chunk, List.length_nil, h, List.range_zero, List.map_nil]

theorem chunk_cons {T : Type} (arr : List T) (size : ℕ) (hs : 1 ≤ size)
    (h : arr ≠ []) :
    chunk arr size = arr.take size :: chunk (arr.drop size) size := by
  have hn : 0 < arr.length := List.length_pos.mpr h
  unfold chunk
  rw [List.length_drop, chunk_count_succ arr.length size hs hn,
    List.range_succ_eq_map, List.map_cons, List.map_map]
  refine congrArg₂ _ (by simp) ?_
  apply List.map_congr_left
  intro i _
  simp only [Function.comp_apply, List.drop_drop, Nat.succ_mul]
  rw [Nat.add_comm (i * size) size]

theorem chunk_join {T : Type} (size : ℕ) (hs : 1 ≤ size) :
    ∀ (n : ℕ) (arr : List T), arr.length ≤ n → (chunk arr size).flatten = arr := by
  intro n
  induction n with
  | zero =>
    intro arr hlen
    have h : arr = [] := List.eq_nil_of_length_eq_zero (Nat.le_zero.mp hlen)
    rw [h, chunk_nil size hs]
    rfl
  | succ n ih =>
    intro arr hlen
    rcases eq_or_ne arr [] with rfl | hne
    · rw [chunk_nil size hs]; rfl
    · rw [chunk_cons arr size hs hne, List.flatten_cons,
        ih (arr.drop size) (by simp; omega), List.take_append_drop]

theorem chunk_length {T : Type} (arr : List T) (size : ℕ) :
    (chunk arr size).length = (arr.length + size - 1) / size := by
  simp [chunk]

theorem chunk_getD {T : Type} (arr : List T) (size i : ℕ)
    (h : i < (chunk arr size).length) :
    (chunk arr size).getD i [] = (arr.drop (i * size)).take size := by
  rw [List.getD_eq_getElem _ _ h]
  simp only [chunk, List.getElem_map, List.getElem_range]

/-- Claim C10: for every list and every `size ≥ 1`, `chunk(arr, size)` returns
`⌈arr.length / size⌉` sub-arrays whose in-order concatenation is `arr`; every
sub-array except possibly the last has length exactly `size`, and the last
has length between `1` and `size` when `arr` is nonempty. -/
theorem chunk_spec {T : Type} (arr : List T) (size : ℕ) (hs : 1 ≤ size) :
    (chunk arr size).length = (arr.length + size - 1) / size ∧
    (chunk arr size).flatten = arr ∧
    (∀ i, i + 1 < (chunk arr size).length →
        ((chunk arr size).getD i []).length = size) ∧
    (arr ≠ [] →
      1 ≤ ((chunk arr size).getD ((chunk arr size).length - 1) []).length ∧
      ((chunk arr size).getD ((chunk arr size).length - 1) []).length ≤ size) := by
  have hpos : 0 < size := hs
  refine ⟨chunk_length arr size, chunk_join size hs arr.length arr le_rfl, ?_, ?_⟩
  · intro i hi
    have hic : i < (chunk arr size).length := by omega
    rw [chunk_getD arr size i hic]
    rw [chunk_length arr size] at hi
    have h2 : (i + 2) * size ≤ arr.length + size - 1 :=
      (Nat.le_div_iff_mul_le hpos).mp (by omega)
    rw [Nat.add_mul] at h2
    simp only [List.length_take, List.length_drop]
    omega
  · intro hne
    have hn : 0 < arr.length := List.length_pos.mpr hne
    have hc : 1 ≤ (arr.length + size - 1) / size :=
      (Nat.le_div_iff_mul_le hpos).mpr (by omega)
    have hlt : (chunk arr size).length - 1 < (chunk arr size).length := by
      rw [chunk_length arr size]; omega
    rw [chunk_getD arr size _ hlt, chunk_length arr size]
    have heq :
        size * ((arr.length + size - 1) / size) + (arr.length + size - 1) % size
          = arr.length + size - 1 := Nat.div_add_mod _ _
    have hr : (arr.length + size - 1) % size < size := Nat.mod_lt _ hpos
    have hmul : ((arr.length + size - 1) / size - 1) * size
        = size * ((arr.length + size - 1) / size) - size := by
      rw [Nat.sub_mul, one_mul, Nat.mul_comm]
    simp only [List.length_take, List.length_drop, hmul]
    omega

theorem chunk_spec_witness :
    (1 : ℕ) ≤ 2 ∧
    ((chunk ([1, 2, 3, 4, 5] : List ℕ) 2).length
        = (([1, 2, 3, 4, 5] : List ℕ).length + 2 - 1) / 2 ∧
     (chunk ([1, 2, 3, 4, 5] : List ℕ) 2).flatten = [1, 2, 3, 4, 5] ∧
     (∀ i, i + 1 < (chunk ([1, 2, 3, 4, 5] : List ℕ) 2).length →
         ((chunk ([1, 2, 3, 4, 5] : List ℕ) 2).getD i []).length = 2) ∧
     (([1, 2, 3, 4, 5] : List ℕ) ≠ [] →
       1 ≤ ((chunk ([1, 2, 3, 4, 5] : List ℕ) 2).getD
              ((chunk ([1, 2, 3, 4, 5] : List ℕ) 2).length - 1) []).length ∧
       ((chunk ([1, 2, 3, 4, 5] : List ℕ) 2).getD
          ((chunk ([1, 2, 3, 4, 5] : List ℕ) 2).length - 1) []).length ≤ 2)) :=
  ⟨by decide, chunk_spec [1, 2, 3, 4, 5] 2 (by decide)⟩

end Utils

/-! ### The segment-group store and the SegmentList component

The component reads and mutates segments through the store API
(`getSegment`, `updateSegment`, `segmentByGroupID`).  The store itself is not
among the provided sources, so it is modelled from the spec. -/

/-- A segment record (`SegmentMask`): a labeled region/mask value within a
segmentation group, with a name, an RGBA color and visibility/lock flags. -/
structure SegmentMask where
  value : ℤ
  name : String
  color : List ℤ
  visible : Bool
  locked : Bool
deriving DecidableEq

/-- A partial update, as passed to `updateSegment`: only the fields present
in the JS object literal are changed. -/
structure SegmentPatch where
  name : Option String
  color : Option (List ℤ)
  visible : Option Bool
  locked : Option Bool
deriving DecidableEq

/-- The empty patch; the component builds its patches by overriding single
fields of it. -/
def SegmentPatch.empty : SegmentPatch := ⟨none, none, none, none⟩

/-- Merging a patch into a segment: fields present in the patch replace the
segment's fields, the rest are kept. -/
def applyPatch (seg : SegmentMask) (patch : SegmentPatch) : SegmentMask :=
  { value := seg.value
    name := patch.name.getD seg.name
    color := patch.color.getD seg.color
    visible := patch.visible.getD seg.visible
    locked := patch.locked.getD seg.locked }

/-- Modelled from the spec: the external reactive segment-group store owns the
segment records; `segmentByGroupID` maps a group ID to its list of segments
(the component reads `segmentByGroupID[groupId] ?? []`, so a missing group is
the empty list). -/
structure SegmentGroupStore where
  segmentByGroupID : String → List SegmentMask

/-- Modelled from the spec: `getSegment(groupId, value)` returns the segment
with the given value in the group, if any. -/
def getSegment (store : SegmentGroupStore) (groupId : String) (value : ℤ) :
    Option SegmentMask :=
  (store.segmentByGroupID groupId).find? fun seg => seg.value == value

/-- Modelled from the spec: `updateSegment(groupId, value, patch)` is the
CRUD-style store edit that merges the patch into the segment with the given
value in the given group. -/
def updateSegment (store : SegmentGroupStore) (groupId : String) (value : ℤ)
    (patch : SegmentPatch) : SegmentGroupStore :=
  ⟨fun gid =>
    if gid = groupId then
      (store.segmentByGroupID gid).map fun seg =>
        if seg.value == value then applyPatch seg patch else seg
    else store.segmentByGroupID gid⟩

/-- `toggleVisible` from SegmentList: looks the segment up, returns if it is
missing, and otherwise updates it with the negated `visible` flag. -/
def toggleVisible (store : SegmentGroupStore) (groupId : String) (value : ℤ) :
    SegmentGroupStore :=
  match getSegment store groupId value with
  | none => store
  | some segment =>
      updateSegment store groupId value
        { SegmentPatch.empty with visible := some (!segment.visible) }

/-- `toggleLock` from SegmentList: if the segment exists, updates it with the
negated `locked` flag. -/
def toggleLock (store : SegmentGroupStore) (groupId : String) (value : ℤ) :
    SegmentGroupStore :=
  match getSegment store groupId value with
  | none => store
  | some seg =>
      updateSegment store groupId value
        { SegmentPatch.empty with locked := some (!seg.locked) }

/-- The `allVisible` computed property: every segment of the group is
visible. -/
def allVisible (store : SegmentGroupStore) (groupId : String) : Bool :=
  (store.segmentByGroupID groupId).all fun seg => seg.visible

/-- The `allLocked` computed property: every segment of the group is
locked. -/
def allLocked (store : SegmentGroupStore) (groupId : String) : Bool :=
  (store.segmentByGroupID groupId).all fun seg => seg.locked

/-- `toggleGlobalVisible` from SegmentList: computes `visible = !allVisible`
once, then updates every segment of the group (iterating over the list read
before the first update) with that flag. -/
def toggleGlobalVisible (store : SegmentGroupStore) (groupId : String) :
    SegmentGroupStore :=
  let visible := !allVisible store groupId
  (store.segmentByGroupID groupId).foldl
    (fun st seg =>
      updateSegment st groupId seg.value
        { SegmentPatch.empty with visible := some visible })
    store

/-- `toggleGlobalLocked` from SegmentList: same as `toggleGlobalVisible` for
the `locked` flag. -/
def toggleGlobalLocked (store : SegmentGroupStore) (groupId : String) :
    SegmentGroupStore :=
  let locked := !allLocked store groupId
  (store.segmentByGroupID groupId).foldl
    (fun st seg =>
      updateSegment st groupId seg.value
        { SegmentPatch.empty with locked := some locked })
    store

theorem applyPatch_value (seg : SegmentMask) (p : SegmentPatch) :
    (applyPatch seg p).value = seg.value := rfl

theorem applyPatch_idem (seg : SegmentMask) (p : SegmentPatch) :
    applyPatch (applyPatch seg p) p = applyPatch seg p := by
  cases p with
  | mk n c v l => cases n <;> cases c <;> cases v <;> cases l <;> rfl

theorem updateSegment_self (store : SegmentGroupStore) (groupId : String)
    (value : ℤ) (p : SegmentPatch) :
    (updateSegment store groupId value p).segmentByGroupID groupId
      = (store.segmentByGroupID groupId).map fun seg =>
          if seg.value == value then applyPatch seg p else seg := by
  simp [updateSegment]

theorem updateSegment_other (store : SegmentGroupStore) (groupId : String)
    (value : ℤ) (p : SegmentPatch) (gid : String) (h : gid ≠ groupId) :
    (updateSegment store groupId value p).segmentByGroupID gid
      = store.segmentByGroupID gid := by
  simp [updateSegment, h]

theorem foldl_update_segments (groupId : String) (p : SegmentPatch) :
    ∀ (iter : List SegmentMask) (st : SegmentGroupStore),
      ((iter.foldl (fun st seg => updateSegment st groupId seg.value p) st)
          |>.segmentByGroupID groupId)
        = (st.segmentByGroupID groupId).map fun s =>
            if s.value ∈ iter.map SegmentMask.value then applyPatch s p
            else s := by
  intro iter
  induction iter with
  | nil =>
    intro st
    simp
  | cons a iter ih =>
    intro st
    rw [List.foldl_cons, ih, updateSegment_self, List.map_map]
    apply List.map_congr_left
    intro s _
    simp only [Function.comp_apply, List.map_cons, List.mem_cons]
    by_cases hv : s.value = a.value
    · have hb : (s.value == a.value) = true := beq_iff_eq.mpr hv
      rw [if_pos hb, applyPatch_value, applyPatch_idem, ite_self,
        if_pos (Or.inl hv)]
    · have hb : ¬ ((s.value == a.value) = true) :=
        fun h => hv (beq_iff_eq.mp h)
      rw [if_neg hb]
      exact if_congr ⟨fun h => Or.inr h, fun h => h.resolve_left hv⟩ rfl rfl

theorem toggleGlobalVisible_eq_map (store : SegmentGroupStore)
    (groupId : String) :
    (toggleGlobalVisible store groupId).segmentByGroupID groupId
      = (store.segmentByGroupID groupId).map fun s =>
          { s with visible := !allVisible store groupId } := by
  unfold toggleGlobalVisible
  rw [foldl_update_segments]
  apply List.map_congr_left
  intro s hs
  rw [if_pos (List.mem_map_of_mem SegmentMask.value hs)]
  rfl

theorem toggleGlobalLocked_eq_map (store : SegmentGroupStore)
    (groupId : String) :
    (toggleGlobalLocked store groupId).segmentByGroupID groupId
      = (store.segmentByGroupID groupId).map fun s =>
          { s with locked := !allLocked store groupId } := by
  unfold toggleGlobalLocked
  rw [foldl_update_segments]
  apply List.map_congr_left
  intro s hs
  rw [if_pos (List.mem_map_of_mem SegmentMask.value hs)]
  rfl

/-- Claim C5: `toggleGlobalVisible` sets the `visible` flag of every segment
of the group to `true` when at least one segment is hidden and to `false`
when all are visible; `toggleGlobalLocked` does the same for `locked`; after
either operation all segments of the group agree on that flag, and no other
field of any segment changes. -/
theorem toggleGlobal_spec (store : SegmentGroupStore) (groupId : String) :
    ((toggleGlobalVisible store groupId).segmentByGroupID groupId
        = (store.segmentByGroupID groupId).map fun s =>
            { s with visible := !allVisible store groupId }) ∧
    ((!allVisible store groupId) = true ↔
        ∃ s ∈ store.segmentByGroupID groupId, s.visible = false) ∧
    ((!allVisible store groupId) = false ↔
        ∀ s ∈ store.segmentByGroupID groupId, s.visible = true) ∧
    (∀ s ∈ (toggleGlobalVisible store groupId).segmentByGroupID groupId,
        ∀ t ∈ (toggleGlobalVisible store groupId).segmentByGroupID groupId,
          s.visible = t.visible) ∧
    (((toggleGlobalVisible store groupId).segmentByGroupID groupId).map
          (fun s => (s.value, s.name, s.color, s.locked))
        = (store.segmentByGroupID groupId).map
            fun s => (s.value, s.name, s.color, s.locked)) ∧
    ((toggleGlobalLocked store groupId).segmentByGroupID groupId
        = (store.segmentByGroupID groupId).map fun s =>
            { s with locked := !allLocked store groupId }) ∧
    ((!allLocked store groupId) = true ↔
        ∃ s ∈ store.segmentByGroupID groupId, s.locked = false) ∧
    ((!allLocked store groupId) = false ↔
        ∀ s ∈ store.segmentByGroupID groupId, s.locked = true) ∧
    (∀ s ∈ (toggleGlobalLocked store groupId).segmentByGroupID groupId,
        ∀ t ∈ (toggleGlobalLocked store groupId).segmentByGroupID groupId,
          s.locked = t.locked) ∧
    (((toggleGlobalLocked store groupId).segmentByGroupID groupId).map
          (fun s => (s.value, s.name, s.color, s.visible))
        = (store.segmentByGroupID groupId).map
            fun s => (s.value, s.name, s.color, s.visible)) := by
  refine ⟨toggleGlobalVisible_eq_map store groupId, ?_, ?_, ?_, ?_,
    toggleGlobalLocked_eq_map store groupId, ?_, ?_, ?_, ?_⟩
  · simp [allVisible, List.all_eq_true]
  · simp [allVisible, List.all_eq_true]
  · intro s hs t ht
    rw [toggleGlobalVisible_eq_map store groupId] at hs ht
    obtain ⟨s0, _, rfl⟩ := List.mem_map.mp hs
    obtain ⟨t0, _, rfl⟩ := List.mem_map.mp ht
    rfl
  · rw [toggleGlobalVisible_eq_map store groupId, List.map_map]
    rfl
  · simp [allLocked, List.all_eq_true]
  · simp [allLocked, List.all_eq_true]
  · intro s hs t ht
    rw [toggleGlobalLocked_eq_map store groupId] at hs ht
    obtain ⟨s0, _, rfl⟩ := List.mem_map.mp hs
    obtain ⟨t0, _, rfl⟩ := List.mem_map.mp ht
    rfl
  · rw [toggleGlobalLocked_eq_map store groupId, List.map_map]
    rfl

/-- Claim C6: when segment values are unique in the group (they are the
group's keys), `toggleVisible(value)` negates only the `visible` field of the
segment with that value and `toggleLock(value)` negates only its `locked`
field; all other fields of that segment and all other segments are left
unchanged, as are all other groups. -/
theorem toggle_single_spec (store : SegmentGroupStore) (groupId : String)
    (value : ℤ) (s : SegmentMask)
    (hnd : ((store.segmentByGroupID groupId).map SegmentMask.value).Nodup)
    (hs : getSegment store groupId value = some s) :
    ((toggleVisible store groupId value).segmentByGroupID groupId
        = (store.segmentByGroupID groupId).map fun t =>
            if t.value = value then { t with visible := !t.visible } else t) ∧
    (∀ gid, gid ≠ groupId →
        (toggleVisible store groupId value).segmentByGroupID gid
          = store.segmentByGroupID gid) ∧
    ((toggleLock store groupId value).segmentByGroupID groupId
        = (store.segmentByGroupID groupId).map fun t =>
            if t.value = value then { t with locked := !t.locked } else t) ∧
    (∀ gid, gid ≠ groupId →
        (toggleLock store groupId value).segmentByGroupID gid
          = store.segmentByGroupID gid) := by
  have hs' : (store.segmentByGroupID groupId).find?
      (fun seg => seg.value == value) = some s := hs
  have hmem : s ∈ store.segmentByGroupID groupId :=
    List.mem_of_find?_eq_some hs'
  have hbeq := List.find?_some hs'
  have hval : s.value = value := beq_iff_eq.mp hbeq
  have hinj := List.inj_on_of_nodup_map hnd
  refine ⟨?_, ?_, ?_, ?_⟩
  · unfold toggleVisible
    rw [hs, updateSegment_self]
    apply List.map_congr_left
    intro t ht
    by_cases htv : t.value = value
    · have hts : t = s := hinj ht hmem (htv.trans hval.symm)
      rw [if_pos (beq_iff_eq.mpr htv), if_pos htv, hts]
      rfl
    · rw [if_neg (fun h => htv (beq_iff_eq.mp h)), if_neg htv]
  · intro gid hgid
    unfold toggleVisible
    rw [hs, updateSegment_other _ _ _ _ _ hgid]
  · unfold toggleLock
    rw [hs, updateSegment_self]
    apply List.map_congr_left
    intro t ht
    by_cases htv : t.value = value
    · have hts : t = s := hinj ht hmem (htv.trans hval.symm)
      rw [if_pos (beq_iff_eq.mpr htv), if_pos htv, hts]
      rfl
    · rw [if_neg (fun h => htv (beq_iff_eq.mp h)), if_neg htv]
  · intro gid hgid
    unfold toggleLock
    rw [hs, updateSegment_other _ _ _ _ _ hgid]

/-- A concrete two-segment group used to witness the SegmentList theorems. -/
def segA : SegmentMask :=
  { value := 1, name := "a", color := [0, 0, 0, 255]
    visible := true, locked := false }

/-- Second concrete segment of the witness group. -/
def segB : SegmentMask :=
  { value := 2, name := "b", color := [10, 20, 30, 255]
    visible := false, locked := true }

/-- A concrete store holding the witness group under the ID `g`. -/
def demoStore : SegmentGroupStore :=
  ⟨fun gid => if gid = "g" then [segA, segB] else []⟩

theorem toggle_single_spec_witness :
    ((demoStore.segmentByGroupID "g").map SegmentMask.value).Nodup ∧
    getSegment demoStore "g" 1 = some segA ∧
    (((toggleVisible demoStore "g" 1).segmentByGroupID "g"
        = (demoStore.segmentByGroupID "g").map fun t =>
            if t.value = 1 then { t with visible := !t.visible } else t) ∧
     (∀ gid, gid ≠ "g" →
        (toggleVisible demoStore "g" 1).segmentByGroupID gid
          = demoStore.segmentByGroupID gid) ∧
     ((toggleLock demoStore "g" 1).segmentByGroupID "g"
        = (demoStore.segmentByGroupID "g").map fun t =>
            if t.value = 1 then { t with locked := !t.locked } else t) ∧
     (∀ gid, gid ≠ "g" →
        (toggleLock demoStore "g" 1).segmentByGroupID gid
          = demoStore.segmentByGroupID gid)) :=
  ⟨by decide, by decide,
    toggle_single_spec demoStore "g" 1 segA (by decide) (by decide)⟩

theorem foldl_update_other (groupId : String) (p : SegmentPatch) :
    ∀ (iter : List SegmentMask) (st : SegmentGroupStore) (gid : String),
      gid ≠ groupId →
      ((iter.foldl (fun st seg => updateSegment st groupId seg.value p) st)
          |>.segmentByGroupID gid)
        = st.segmentByGroupID gid := by
  intro iter
  induction iter with
  | nil => intro st gid _; rfl
  | cons a iter ih =>
    intro st gid h
    rw [List.foldl_cons, ih _ gid h, updateSegment_other _ _ _ _ _ h]

theorem find?_map_patch (value : ℤ) (p : SegmentPatch) :
    ∀ l : List SegmentMask,
      ((l.map fun seg =>
          if seg.value == value then applyPatch seg p else seg).find?
            fun seg => seg.value == value)
        = (l.find? fun seg => seg.value == value).map
            fun s => applyPatch s p := by
  intro l
  induction l with
  | nil => rfl
  | cons a l ih =>
    by_cases h : (a.value == value) = true
    · have hp1 : (fun seg : SegmentMask => seg.value == value)
          (applyPatch a p) = true := by
        simp only [applyPatch_value]; exact h
      rw [List.map_cons, if_pos h,
        List.find?_cons_of_pos (p := fun seg : SegmentMask => seg.value == value) _ hp1,
        List.find?_cons_of_pos (p := fun seg : SegmentMask => seg.value == value) _ h]
      rfl
    · rw [List.map_cons, if_neg h,
        List.find?_cons_of_neg (p := fun seg : SegmentMask => seg.value == value) _ h,
        List.find?_cons_of_neg (p := fun seg : SegmentMask => seg.value == value) _ h, ih]

theorem find?_map_patch_other (value w : ℤ) (hw : w ≠ value)
    (p : SegmentPatch) :
    ∀ l : List SegmentMask,
      ((l.map fun seg =>
          if seg.value == value then applyPatch seg p else seg).find?
            fun seg => seg.value == w)
        = l.find? fun seg => seg.value == w := by
  intro l
  induction l with
  | nil => rfl
  | cons a l ih =>
    by_cases h : (a.value == value) = true
    · have hav : a.value = value := beq_iff_eq.mp h
      have hnw : ¬ ((fun seg : SegmentMask => seg.value == w)
          (applyPatch a p) = true) := by
        simp only [applyPatch_value, hav]
        exact fun hc => hw (beq_iff_eq.mp hc).symm
      have hnw2 : ¬ ((fun seg : SegmentMask => seg.value == w) a = true) := by
        simp only [hav]
        exact fun hc => hw (beq_iff_eq.mp hc).symm
      rw [List.map_cons, if_pos h,
        List.find?_cons_of_neg (p := fun seg : SegmentMask => seg.value == w) _ hnw,
        List.find?_cons_of_neg (p := fun seg : SegmentMask => seg.value == w) _ hnw2, ih]
    · rw [List.map_cons, if_neg h]
      by_cases hw2 : (a.value == w) = true
      · rw [List.find?_cons_of_pos (p := fun seg : SegmentMask => seg.value == w) _ hw2,
          List.find?_cons_of_pos (p := fun seg : SegmentMask => seg.value == w) _ hw2]
      · rw [List.find?_cons_of_neg (p := fun seg : SegmentMask => seg.value == w) _ hw2,
          List.find?_cons_of_neg (p := fun seg : SegmentMask => seg.value == w) _ hw2, ih]

theorem getSegment_updateSegment_self (store : SegmentGroupStore)
    (groupId : String) (value : ℤ) (p : SegmentPatch) :
    getSegment (updateSegment store groupId value p) groupId value
      = (getSegment store groupId value).map fun s => applyPatch s p := by
  unfold getSegment
  rw [updateSegment_self]
  exact find?_map_patch value p _

theorem getSegment_updateSegment_other_value (store : SegmentGroupStore)
    (groupId : String) (value w : ℤ) (hw : w ≠ value) (p : SegmentPatch) :
    getSegment (updateSegment store groupId value p) groupId w
      = getSegment store groupId w := by
  unfold getSegment
  rw [updateSegment_self]
  exact find?_map_patch_other value w hw p _

/-- The dialog edit state of SegmentList (`editState`): edited name, edited
hex color string, and opacity (a JS float in `[0, 1]`, embedded as `ℚ`). -/
structure EditState where
  name : String
  color : String
  opacity : ℚ
deriving DecidableEq

/-- The editing-related reactive state of the SegmentList component. -/
structure SegmentListUIState where
  editingSegmentValue : Option ℤ
  editState : EditState
  editDialog : Bool
deriving DecidableEq

/-- JS truthiness of `editingSegmentValue.value` (a `Maybe<number>`): `null`
and `0` are falsy. -/
def editingValueTruthy : Option ℤ → Bool
  | none => false
  | some v => v != 0

/-- `stopEditing(commit)` from SegmentList.  `hexaToRGBA` is the external
color helper (`utils/color`, not among the sources), passed in abstractly:
the code keeps its first three channels and replaces the alpha channel by
`Math.round(opacity * 255)`, which is `round` on `ℚ` (both round half up).
The JS `editState.name ?? makeDefaultSegmentName(...)` is just
`editState.name`, since `name` is a non-nullable string.  Returns the
updated store together with the updated component state. -/
def stopEditing (hexaToRGBA : String → List ℤ) (store : SegmentGroupStore)
    (groupId : String) (ui : SegmentListUIState) (commit : Bool) :
    SegmentGroupStore × SegmentListUIState :=
  let newStore :=
    if editingValueTruthy ui.editingSegmentValue && commit then
      match ui.editingSegmentValue with
      | some v =>
          updateSegment store groupId v
            { SegmentPatch.empty with
                name := some ui.editState.name
                color := some ((hexaToRGBA ui.editState.color).take 3
                  ++ [round (ui.editState.opacity * 255)]) }
      | none => store
    else store
  (newStore, { ui with editingSegmentValue := none, editDialog := false })

/-- A segment whose value is `0`, the JS-falsy segment value. -/
def segZero : SegmentMask :=
  { value := 0, name := "bg", color := [0, 0, 0, 0]
    visible := true, locked := false }

/-- A store whose group `g` holds only `segZero`. -/
def zeroStore : SegmentGroupStore :=
  ⟨fun gid => if gid = "g" then [segZero] else []⟩

/-- Component state in which the segment of value `0` is being edited (its
`editingSegment` computed is non-null, since only `== null` is checked
there) with a new name typed into the dialog. -/
def zeroUI : SegmentListUIState :=
  { editingSegmentValue := some 0
    editState := { name := "newname", color := "#ff0000", opacity := 1 }
    editDialog := true }

/-- A concrete stand-in for the external `hexaToRGBA` helper. -/
def demoHexa : String → List ℤ := fun _ => [255, 0, 0, 255]

/-- Counterexample to claim C7 as stated: the segment of value `0` is being
edited (the `editingSegment` computed checks `editingSegmentValue == null`
only, so it is non-null here) and the dialog holds the new name `newname`,
yet `stopEditing(true)` writes nothing, because the commit guard
`editingSegmentValue.value && commit` treats the segment value `0` as falsy.
The store still holds the old name afterwards. -/
theorem stopEditing_counterexample :
    zeroUI.editingSegmentValue = some 0 ∧
    getSegment zeroStore "g" 0 = some segZero ∧
    zeroUI.editState.name = "newname" ∧
    segZero.name = "bg" ∧
    (stopEditing demoHexa zeroStore "g" zeroUI true).1 = zeroStore ∧
    getSegment (stopEditing demoHexa zeroStore "g" zeroUI true).1 "g" 0
      = some segZero :=
  ⟨rfl, by decide, rfl, rfl, rfl, by decide⟩

/-- Claim C7 (amended): for every segment being edited whose value is nonzero
(the JS commit guard `editingSegmentValue.value && commit` treats the value
`0` as unset, so the claim holds only for nonzero values),
`stopEditing(true)` writes the edited name and a color made of the RGB
channels of the edited hex color plus `Math.round(opacity * 255)` as alpha
to that segment, leaves every other segment and group unchanged, and clears
the editing state and closes the dialog; `stopEditing(false)` changes no
segment and only clears the editing state and closes the dialog. -/
theorem stopEditing_spec (hexaToRGBA : String → List ℤ)
    (store : SegmentGroupStore) (groupId : String) (ui : SegmentListUIState)
    (v : ℤ) (s : SegmentMask)
    (hv : ui.editingSegmentValue = some v) (hv0 : v ≠ 0)
    (hs : getSegment store groupId v = some s) :
    (getSegment (stopEditing hexaToRGBA store groupId ui true).1 groupId v
        = some { s with
            name := ui.editState.name
            color := (hexaToRGBA ui.editState.color).take 3
              ++ [round (ui.editState.opacity * 255)] }) ∧
    (∀ w, w ≠ v →
        getSegment (stopEditing hexaToRGBA store groupId ui true).1 groupId w
          = getSegment store groupId w) ∧
    (∀ gid, gid ≠ groupId →
        (stopEditing hexaToRGBA store groupId ui true).1.segmentByGroupID gid
          = store.segmentByGroupID gid) ∧
    (stopEditing hexaToRGBA store groupId ui true).2.editingSegmentValue
      = none ∧
    (stopEditing hexaToRGBA store groupId ui true).2.editDialog = false ∧
    (stopEditing hexaToRGBA store groupId ui false).1 = store ∧
    (stopEditing hexaToRGBA store groupId ui false).2.editingSegmentValue
      = none ∧
    (stopEditing hexaToRGBA store groupId ui false).2.editDialog = false := by
  have hguard : editingValueTruthy ui.editingSegmentValue = true := by
    rw [hv]
    exact bne_iff_ne.mpr hv0
  have h1 : (stopEditing hexaToRGBA store groupId ui true).1
      = updateSegment store groupId v
          { SegmentPatch.empty with
              name := some ui.editState.name
              color := some ((hexaToRGBA ui.editState.color).take 3
                ++ [round (ui.editState.opacity * 255)]) } := by
    unfold stopEditing
    rw [hguard]
    simp only [Bool.true_and, if_true, hv]
  have h0 : (stopEditing hexaToRGBA store groupId ui false).1 = store := by
    unfold stopEditing
    simp only [Bool.and_false, Bool.false_eq_true, if_false]
  refine ⟨?_, ?_, ?_, rfl, rfl, h0, rfl, rfl⟩
  · rw [h1, getSegment_updateSegment_self, hs]
    rfl
  · intro w hw
    rw [h1, getSegment_updateSegment_other_value store groupId v w hw]
  · intro gid hgid
    rw [h1, updateSegment_other _ _ _ _ _ hgid]

/-- Component state editing the nonzero-valued segment `segA`. -/
def demoUI : SegmentListUIState :=
  { editingSegmentValue := some 1
    editState := { name := "neo", color := "#00ff00", opacity := 1 / 2 }
    editDialog := true }

theorem stopEditing_spec_witness :
    demoUI.editingSegmentValue = some 1 ∧
    (1 : ℤ) ≠ 0 ∧
    getSegment demoStore "g" 1 = some segA ∧
    ((getSegment (stopEditing demoHexa demoStore "g" demoUI true).1 "g" 1
        = some { segA with
            name := demoUI.editState.name
            color := (demoHexa demoUI.editState.color).take 3
              ++ [round (demoUI.editState.opacity * 255)] }) ∧
     (∀ w, w ≠ 1 →
        getSegment (stopEditing demoHexa demoStore "g" demoUI true).1 "g" w
          = getSegment demoStore "g" w) ∧
     (∀ gid, gid ≠ "g" →
        (stopEditing demoHexa demoStore "g" demoUI true).1.segmentByGroupID gid
          = demoStore.segmentByGroupID gid) ∧
     (stopEditing demoHexa demoStore "g" demoUI true).2.editingSegmentValue
       = none ∧
     (stopEditing demoHexa demoStore "g" demoUI true).2.editDialog = false ∧
     (stopEditing demoHexa demoStore "g" demoUI false).1 = demoStore ∧
     (stopEditing demoHexa demoStore "g" demoUI false).2.editingSegmentValue
       = none ∧
     (stopEditing demoHexa demoStore "g" demoUI false).2.editDialog = false) :=
  ⟨rfl, by decide, by decide,
    stopEditing_spec demoHexa demoStore "g" demoUI 1 segA rfl (by decide)
      (by decide)⟩

/-- The `selectedSegment` watcher body from SegmentList, as a function from
the new segment list and the previous selection (`paintStore.activeSegment`)
to the selection after the watcher ran.  `segments_` is always an array (the
computed falls back to `[]`), so only the truthiness of the selection
matters: `null` and the value `0` are falsy, making `reset` stay `true`;
otherwise `reset` is whether no segment carries the selected value.  On
reset the selection becomes the first segment's value, or `null` if the
list is empty. -/
def segmentsWatcher (segments_ : List SegmentMask) (sel : Option ℤ) :
    Option ℤ :=
  let reset : Bool :=
    match sel with
    | some v => if v != 0 then (segments_.find? fun seg => seg.value == v).isNone else true
    | none => true
  if reset then
    match segments_ with
    | [] => none
    | seg :: _ => some seg.value
  else sel

/-- The `reset` flag computed by the watcher, as a standalone function. -/
def watcherReset (ss : List SegmentMask) (sel : Option ℤ) : Bool :=
  match sel with
  | some v =>
      if v != 0 then (ss.find? fun seg => seg.value == v).isNone else true
  | none => true

/-- The value assigned on reset: the first segment's value, or `null`. -/
def firstValue : List SegmentMask → Option ℤ
  | [] => none
  | seg :: _ => some seg.value

theorem segmentsWatcher_def (ss : List SegmentMask) (sel : Option ℤ) :
    segmentsWatcher ss sel =
      if watcherReset ss sel = true then firstValue ss else sel := by
  unfold segmentsWatcher watcherReset firstValue
  rfl

/-- Claim C9: after the watcher runs, the selection is the value of a segment
in the current list or `null`: the empty list yields `null`; a selection that
is absent from the list, or that the watcher judges unset (`null` or the
falsy value `0`), is replaced by the first segment's value; a nonzero
selection still present in the list is kept. -/
theorem segmentsWatcher_spec (ss : List SegmentMask) (sel : Option ℤ) :
    (ss = [] → segmentsWatcher ss sel = none) ∧
    (∀ v, segmentsWatcher ss sel = some v → ∃ seg ∈ ss, seg.value = v) ∧
    (∀ hd tl, ss = hd :: tl →
      (sel = none ∨ sel = some 0 ∨
        (∀ v, sel = some v → ∀ seg ∈ ss, seg.value ≠ v)) →
      segmentsWatcher ss sel = some hd.value) ∧
    (∀ v, sel = some v → v ≠ 0 → (∃ seg ∈ ss, seg.value = v) →
      segmentsWatcher ss sel = sel) := by
  refine ⟨?_, ?_, ?_, ?_⟩
  · rintro rfl
    rw [segmentsWatcher_def]
    have hr : watcherReset [] sel = true := by
      cases sel with
      | none => rfl
      | some v =>
        show (if (v != 0) = true then
            (List.find? (fun seg => seg.value == v) []).isNone
            else true) = true
        cases h : v != 0 <;> simp [h]
    rw [if_pos hr]
    rfl
  · intro v hv
    rw [segmentsWatcher_def] at hv
    split at hv
    · cases ss with
      | nil => exact absurd hv (by simp [firstValue])
      | cons hd tl =>
        rw [show firstValue (hd :: tl) = some hd.value from rfl] at hv
        simp only [Option.some.injEq] at hv
        exact ⟨hd, List.mem_cons_self hd tl, hv⟩
    · rename_i hreset
      subst hv
      by_cases hz : (v != 0) = true
      · have hreset2 : ¬ ((ss.find? fun seg => seg.value == v).isNone
            = true) := by
          intro hc
          apply hreset
          show (if (v != 0) = true then
              (ss.find? fun seg => seg.value == v).isNone else true) = true
          rw [if_pos hz]
          exact hc
        cases hh : ss.find? fun seg => seg.value == v with
        | none => exact absurd (by rw [hh]; rfl) hreset2
        | some t =>
          refine ⟨t, List.mem_of_find?_eq_some hh, ?_⟩
          have ht := List.find?_some hh
          exact beq_iff_eq.mp ht
      · exfalso
        apply hreset
        show (if (v != 0) = true then
            (ss.find? fun seg => seg.value == v).isNone else true) = true
        rw [if_neg hz]
  · rintro hd tl rfl hsel
    rw [segmentsWatcher_def]
    have hcond : watcherReset (hd :: tl) sel = true := by
      rcases hsel with rfl | rfl | habs
      · rfl
      · rfl
      · cases hsv : sel with
        | none => rfl
        | some v =>
          show (if (v != 0) = true then
              ((hd :: tl).find? fun seg => seg.value == v).isNone
              else true) = true
          by_cases hz : (v != 0) = true
          · rw [if_pos hz]
            have hnone : ((hd :: tl).find? fun seg => seg.value == v)
                = none := by
              apply List.find?_eq_none.mpr
              intro seg hseg
              exact fun hc => habs v hsv seg hseg (beq_iff_eq.mp hc)
            rw [hnone]
            rfl
          · rw [if_neg hz]
    rw [if_pos hcond]
    rfl
  · rintro v rfl hv0 ⟨seg, hmem, hval⟩
    rw [segmentsWatcher_def]
    have hfind : ((ss.find? fun seg => seg.value == v).isNone) = false := by
      cases hh : ss.find? fun seg => seg.value == v with
      | none =>
        have := List.find?_eq_none.mp hh seg hmem
        exact absurd (beq_iff_eq.mpr hval) this
      | some t => rfl
    have hcond : watcherReset ss (some v) = false := by
      show (if (v != 0) = true then
          (ss.find? fun seg => seg.value == v).isNone else true) = false
      rw [if_pos (bne_iff_ne.mpr hv0)]
      exact hfind
    rw [if_neg (fun hc => Bool.false_ne_true (hcond ▸ hc))]

/-! ### The polygon tool's rasterization path

`createGridAccessor` and `rasterize` from PolygonTool.  The vtk image holds
its pixel data as a flat scalar array; indices are zero-based (VolView's
label-map images have extent `[0, d0-1, 0, d1-1, 0, d2-1]`), and
`computeOffsetIndex` is the usual x-fastest flat offset.  `worldToIndex` is
the image's external world-to-index transform, carried abstractly; the
external `fillPoly` of the rasterization library can reach the image only
through the accessor's `setAtUnsafe`, so its effect is abstracted as the
list of 2D grid cells it visits, each written through `setAtUnsafe`. -/

/-- A vtk image: dimensions, the world-to-index transform, the scalar data
addressed by flat offset, and a counter of `modified()` calls. -/
structure ImageState where
  dims : ℕ × ℕ × ℕ
  worldToIndex : ℚ × ℚ × ℚ → ℚ × ℚ × ℚ
  scalars : ℕ → ℤ
  modifiedCount : ℕ

/-- `image.getExtent()` for a zero-based image: `[0, d - 1]` on each axis. -/
def imageExtent (img : ImageState) : (ℤ × ℤ) × (ℤ × ℤ) × (ℤ × ℤ) :=
  ((0, (img.dims.1 : ℤ) - 1),
   (0, (img.dims.2.1 : ℤ) - 1),
   (0, (img.dims.2.2 : ℤ) - 1))

/-- vtk's `BoundingBox.containsPoint`: inclusive on all six bounds. -/
def containsPoint (bounds : (ℤ × ℤ) × (ℤ × ℤ) × (ℤ × ℤ))
    (x y z : ℤ) : Bool :=
  decide (bounds.1.1 ≤ x) && decide (x ≤ bounds.1.2) &&
  decide (bounds.2.1.1 ≤ y) && decide (y ≤ bounds.2.1.2) &&
  decide (bounds.2.2.1 ≤ z) && decide (z ≤ bounds.2.2.2)

/-- `image.computeOffsetIndex([i,j,k])`: the x-fastest flat offset. -/
def computeOffsetIndex (img : ImageState) (ijk : ℤ × ℤ × ℤ) : ℤ :=
  ijk.1 + (img.dims.1 : ℤ) * (ijk.2.1 + (img.dims.2.1 : ℤ) * ijk.2.2)

/-- `convertTo3D(a, b)` from `createGridAccessor`: `[a, b]` with the slice
inserted at `axisIdx` (`point.splice(axisIdx, 0, slice)`; an index of 2 or
more appends, as `splice` clamps to the array length). -/
def convertTo3D (axisIdx : ℕ) (slice : ℤ) (a b : ℤ) : ℤ × ℤ × ℤ :=
  match axisIdx with
  | 0 => (slice, a, b)
  | 1 => (a, slice, b)
  | _ => (a, b, slice)

/-- The coordinate of a 3D index along the given axis. -/
def axisCoord (axisIdx : ℕ) (p : ℤ × ℤ × ℤ) : ℤ :=
  match axisIdx with
  | 0 => p.1
  | 1 => p.2.1
  | _ => p.2.2

/-- `output.splice(axis, 1)` on a 3-element point: drop the coordinate at
`axisIdx` (an index of 2 or more drops the last coordinate). -/
def removeAxis (axisIdx : ℕ) (p : ℚ × ℚ × ℚ) : ℚ × ℚ :=
  match axisIdx with
  | 0 => (p.2.1, p.2.2)
  | 1 => (p.1, p.2.2)
  | _ => (p.1, p.2.1)

/-- `setAtUnsafe(d0, d1, value)` of the accessor built by
`createGridAccessor`: reconstruct the 3D index, and if it lies within the
image extent, write the value at its flat offset and return `true`;
otherwise leave the data untouched and return `false`. -/
def setAtUnsafe (img : ImageState) (slice : ℤ) (axisIdx : ℕ)
    (d0 d1 value : ℤ) : ImageState × Bool :=
  let ijk := convertTo3D axisIdx slice d0 d1
  if containsPoint (imageExtent img) ijk.1 ijk.2.1 ijk.2.2 then
    ({ img with
        scalars := Function.update img.scalars
          (computeOffsetIndex img ijk).toNat value }, true)
  else (img, false)

/-- The effect of the external `fillPoly(grid, points, value)` on the image:
whatever 2D cells the library decides to fill, each is written through the
accessor's `setAtUnsafe` with the fill value (the accessor is the only
channel `fillPoly` has to the image). -/
def fillPolyModel (img : ImageState) (slice : ℤ) (axisIdx : ℕ)
    (cells : List (ℤ × ℤ)) (value : ℤ) : ImageState :=
  cells.foldl (fun im c => (setAtUnsafe im slice axisIdx c.1 c.2 value).1) img

/-- The paint-tool store as read by `rasterize`. -/
structure PaintToolStore where
  activeSegmentGroupID : Option String

/-- The stores `rasterize` touches: the paint store and the segment-group
store's `dataIndex` from group ID to its label-map image. -/
structure RasterWorld where
  paintStore : PaintToolStore
  dataIndex : String → Option ImageState

/-- `rasterize(toolId, segment)` from PolygonTool.  Returns early when the
active segment group ID is JS-falsy (`null` or `''`) or no image is
registered for it.  Otherwise converts the tool's points to index space via
`image.worldToIndex`, drops the slice-axis coordinate, fills the cells the
external `fillPoly` chooses (abstracted by `fillCells`) through the grid
accessor with the segment's value, and marks the image modified.
`getPoints` is the polygon store's point lookup, carried abstractly. -/
def rasterize (world : RasterWorld)
    (getPoints : String → List (ℚ × ℚ × ℚ))
    (fillCells : List (ℚ × ℚ) → List (ℤ × ℤ))
    (toolId : String) (segment : SegmentMask) (slice : ℤ) (axisIdx : ℕ) :
    RasterWorld :=
  match world.paintStore.activeSegmentGroupID with
  | none => world
  | some gid =>
      if gid == "" then world
      else
        match world.dataIndex gid with
        | none => world
        | some image =>
            let points := getPoints toolId
            let indexSpacePoints2D :=
              points.map fun pt => removeAxis axisIdx (image.worldToIndex pt)
            let filled := fillPolyModel image slice axisIdx
              (fillCells indexSpacePoints2D) segment.value
            { world with
                dataIndex := Function.update world.dataIndex gid
                  (some { filled with
                            modifiedCount := filled.modifiedCount + 1 }) }

theorem computeOffsetIndex_bounds (img : ImageState) (ijk : ℤ × ℤ × ℤ)
    (hc : containsPoint (imageExtent img) ijk.1 ijk.2.1 ijk.2.2 = true) :
    0 ≤ computeOffsetIndex img ijk ∧
    (computeOffsetIndex img ijk).toNat
      < img.dims.1 * img.dims.2.1 * img.dims.2.2 := by
  obtain ⟨i, j, k⟩ := ijk
  simp only [containsPoint, imageExtent, Bool.and_eq_true,
    decide_eq_true_eq] at hc
  obtain ⟨⟨⟨⟨⟨hi0, hi1⟩, hj0⟩, hj1⟩, hk0⟩, hk1⟩ := hc
  simp only [computeOffsetIndex] at hi1 hj1 hk1 ⊢
  have hD0 : (1 : ℤ) ≤ (img.dims.1 : ℤ) := by linarith
  have hD1 : (1 : ℤ) ≤ (img.dims.2.1 : ℤ) := by linarith
  have hD2 : (1 : ℤ) ≤ (img.dims.2.2 : ℤ) := by linarith
  have h1 : (0 : ℤ) ≤ j + (img.dims.2.1 : ℤ) * k :=
    add_nonneg hj0 (mul_nonneg (by linarith) hk0)
  have hoff0 : (0 : ℤ) ≤ i + (img.dims.1 : ℤ)
      * (j + (img.dims.2.1 : ℤ) * k) :=
    add_nonneg hi0 (mul_nonneg (by linarith) h1)
  have e1 : (img.dims.2.1 : ℤ) * (1 + k)
      = (img.dims.2.1 : ℤ) + (img.dims.2.1 : ℤ) * k := by ring
  have e2 : (1 : ℤ) + j + (img.dims.2.1 : ℤ) * k
      ≤ (img.dims.2.1 : ℤ) * (1 + k) := by
    rw [e1]; linarith
  have e3 : (img.dims.2.1 : ℤ) * (1 + k)
      ≤ (img.dims.2.1 : ℤ) * (img.dims.2.2 : ℤ) :=
    mul_le_mul_of_nonneg_left (by linarith) (by linarith)
  have e5a : (img.dims.1 : ℤ) * (1 + (j + (img.dims.2.1 : ℤ) * k))
      = (img.dims.1 : ℤ)
        + (img.dims.1 : ℤ) * (j + (img.dims.2.1 : ℤ) * k) := by ring
  have e5 : i + (img.dims.1 : ℤ) * (j + (img.dims.2.1 : ℤ) * k) + 1
      ≤ (img.dims.1 : ℤ) * (1 + (j + (img.dims.2.1 : ℤ) * k)) := by
    rw [e5a]; linarith
  have e6 : (img.dims.1 : ℤ) * (1 + (j + (img.dims.2.1 : ℤ) * k))
      ≤ (img.dims.1 : ℤ)
        * ((img.dims.2.1 : ℤ) * (img.dims.2.2 : ℤ)) :=
    mul_le_mul_of_nonneg_left (by linarith) (by linarith)
  have e7 : ((img.dims.1 * img.dims.2.1 * img.dims.2.2 : ℕ) : ℤ)
      = (img.dims.1 : ℤ)
        * ((img.dims.2.1 : ℤ) * (img.dims.2.2 : ℤ)) := by
    push_cast
    ring
  have hlt : i + (img.dims.1 : ℤ) * (j + (img.dims.2.1 : ℤ) * k)
      < ((img.dims.1 * img.dims.2.1 * img.dims.2.2 : ℕ) : ℤ) := by
    rw [e7]; linarith
  exact ⟨hoff0, by omega⟩

/-- Claim C8: the grid accessor never writes outside the image:
`setAtUnsafe(d0, d1, value)` returns `true` exactly when the reconstructed
3D index lies in the image extent, in which case it writes the value at the
flat offset of that index (which is in range for the image's scalar array)
and changes nothing else; otherwise it returns `false` and leaves the image
untouched, so rasterizing a polygon reaching past the bounds performs no
out-of-range write. -/
theorem setAtUnsafe_spec (img : ImageState) (slice : ℤ) (axisIdx : ℕ)
    (d0 d1 value : ℤ) :
    ((setAtUnsafe img slice axisIdx d0 d1 value).2 = true ↔
        containsPoint (imageExtent img)
          (convertTo3D axisIdx slice d0 d1).1
          (convertTo3D axisIdx slice d0 d1).2.1
          (convertTo3D axisIdx slice d0 d1).2.2 = true) ∧
    ((setAtUnsafe img slice axisIdx d0 d1 value).2 = false →
        (setAtUnsafe img slice axisIdx d0 d1 value).1 = img) ∧
    ((setAtUnsafe img slice axisIdx d0 d1 value).2 = true →
        (computeOffsetIndex img (convertTo3D axisIdx slice d0 d1)).toNat
            < img.dims.1 * img.dims.2.1 * img.dims.2.2 ∧
        (setAtUnsafe img slice axisIdx d0 d1 value).1.scalars
            (computeOffsetIndex img (convertTo3D axisIdx slice d0 d1)).toNat
          = value ∧
        (∀ o : ℕ,
            o ≠ (computeOffsetIndex img
                  (convertTo3D axisIdx slice d0 d1)).toNat →
            (setAtUnsafe img slice axisIdx d0 d1 value).1.scalars o
              = img.scalars o) ∧
        (setAtUnsafe img slice axisIdx d0 d1 value).1.dims = img.dims ∧
        (setAtUnsafe img slice axisIdx d0 d1 value).1.modifiedCount
          = img.modifiedCount) := by
  have hunfold : setAtUnsafe img slice axisIdx d0 d1 value
      = if containsPoint (imageExtent img)
            (convertTo3D axisIdx slice d0 d1).1
            (convertTo3D axisIdx slice d0 d1).2.1
            (convertTo3D axisIdx slice d0 d1).2.2 then
          ({ img with
              scalars := Function.update img.scalars
                (computeOffsetIndex img
                  (convertTo3D axisIdx slice d0 d1)).toNat value }, true)
        else (img, false) := rfl
  by_cases hc : containsPoint (imageExtent img)
      (convertTo3D axisIdx slice d0 d1).1
      (convertTo3D axisIdx slice d0 d1).2.1
      (convertTo3D axisIdx slice d0 d1).2.2 = true
  · rw [hunfold, if_pos hc]
    refine ⟨by simp [hc], by simp, fun _ => ⟨?_, ?_, ?_, rfl, rfl⟩⟩
    · exact (computeOffsetIndex_bounds img _ hc).2
    · exact Function.update_same _ _ _
    · intro o ho
      exact Function.update_noteq ho _ _
  · have hcf : containsPoint (imageExtent img)
        (convertTo3D axisIdx slice d0 d1).1
        (convertTo3D axisIdx slice d0 d1).2.1
        (convertTo3D axisIdx slice d0 d1).2.2 = false :=
      Bool.not_eq_true _ |>.mp hc
    rw [hunfold, if_neg hc]
    refine ⟨by simp [hcf], fun _ => rfl, by simp⟩

theorem imageExtent_eq_of_dims {img1 img2 : ImageState}
    (h : img1.dims = img2.dims) : imageExtent img1 = imageExtent img2 := by
  unfold imageExtent
  rw [h]

theorem computeOffsetIndex_eq_of_dims {img1 img2 : ImageState}
    (h : img1.dims = img2.dims) :
    computeOffsetIndex img1 = computeOffsetIndex img2 := by
  funext ijk
  unfold computeOffsetIndex
  rw [h]


theorem setAtUnsafe_def (img : ImageState) (slice : ℤ) (axisIdx : ℕ)
    (d0 d1 value : ℤ) :
    setAtUnsafe img slice axisIdx d0 d1 value
      = if containsPoint (imageExtent img)
            (convertTo3D axisIdx slice d0 d1).1
            (convertTo3D axisIdx slice d0 d1).2.1
            (convertTo3D axisIdx slice d0 d1).2.2 then
          ({ img with
              scalars := Function.update img.scalars
                (computeOffsetIndex img
                  (convertTo3D axisIdx slice d0 d1)).toNat value }, true)
        else (img, false) := rfl

theorem setAtUnsafe_fst_frame (img : ImageState) (slice : ℤ) (axisIdx : ℕ)
    (d0 d1 value : ℤ) :
    (setAtUnsafe img slice axisIdx d0 d1 value).1.dims = img.dims ∧
    (setAtUnsafe img slice axisIdx d0 d1 value).1.worldToIndex
      = img.worldToIndex ∧
    (setAtUnsafe img slice axisIdx d0 d1 value).1.modifiedCount
      = img.modifiedCount := by
  rw [setAtUnsafe_def]
  split
  · exact ⟨rfl, rfl, rfl⟩
  · exact ⟨rfl, rfl, rfl⟩

theorem fillPolyModel_frame (slice : ℤ) (axisIdx : ℕ) (value : ℤ) :
    ∀ (cells : List (ℤ × ℤ)) (img : ImageState),
      (fillPolyModel img slice axisIdx cells value).dims = img.dims ∧
      (fillPolyModel img slice axisIdx cells value).worldToIndex
        = img.worldToIndex ∧
      (fillPolyModel img slice axisIdx cells value).modifiedCount
        = img.modifiedCount := by
  intro cells
  induction cells with
  | nil => intro img; exact ⟨rfl, rfl, rfl⟩
  | cons c cs ih =>
    intro img
    obtain ⟨h1, h2, h3⟩ := ih (setAtUnsafe img slice axisIdx c.1 c.2 value).1
    obtain ⟨g1, g2, g3⟩ :=
      setAtUnsafe_fst_frame img slice axisIdx c.1 c.2 value
    exact ⟨h1.trans g1, h2.trans g2, h3.trans g3⟩

/-- Whether filling the 2D cell `c` writes the flat offset `o`: the cell's
reconstructed 3D index is inside the extent and its offset is `o`. -/
def writesCell (img : ImageState) (slice : ℤ) (axisIdx : ℕ) (o : ℕ)
    (c : ℤ × ℤ) : Bool :=
  containsPoint (imageExtent img)
      (convertTo3D axisIdx slice c.1 c.2).1
      (convertTo3D axisIdx slice c.1 c.2).2.1
      (convertTo3D axisIdx slice c.1 c.2).2.2
    && ((computeOffsetIndex img (convertTo3D axisIdx slice c.1 c.2)).toNat
      == o)

theorem writesCell_eq_of_dims {img1 img2 : ImageState}
    (h : img1.dims = img2.dims) (slice : ℤ) (axisIdx : ℕ) (o : ℕ) :
    writesCell img1 slice axisIdx o = writesCell img2 slice axisIdx o := by
  funext c
  unfold writesCell
  rw [imageExtent_eq_of_dims h, computeOffsetIndex_eq_of_dims h]

theorem fillPolyModel_scalars (slice : ℤ) (axisIdx : ℕ) (value : ℤ) :
    ∀ (cells : List (ℤ × ℤ)) (img : ImageState) (o : ℕ),
      (fillPolyModel img slice axisIdx cells value).scalars o
        = if cells.any (writesCell img slice axisIdx o) then value
          else img.scalars o := by
  intro cells
  induction cells with
  | nil =>
    intro img o
    simp [fillPolyModel]
  | cons c cs ih =>
    intro img o
    have hstep : fillPolyModel img slice axisIdx (c :: cs) value
        = fillPolyModel (setAtUnsafe img slice axisIdx c.1 c.2 value).1
            slice axisIdx cs value := rfl
    have hdims : (setAtUnsafe img slice axisIdx c.1 c.2 value).1.dims
        = img.dims :=
      (setAtUnsafe_fst_frame img slice axisIdx c.1 c.2 value).1
    rw [hstep, ih _ o,
      writesCell_eq_of_dims hdims slice axisIdx o, List.any_cons]
    have hset : (setAtUnsafe img slice axisIdx c.1 c.2 value).1
        = if containsPoint (imageExtent img)
              (convertTo3D axisIdx slice c.1 c.2).1
              (convertTo3D axisIdx slice c.1 c.2).2.1
              (convertTo3D axisIdx slice c.1 c.2).2.2 then
            { img with
                scalars := Function.update img.scalars
                  (computeOffsetIndex img
                    (convertTo3D axisIdx slice c.1 c.2)).toNat value }
          else img := by
      rw [setAtUnsafe_def]
      split
      · rfl
      · rfl
    cases hcs : cs.any (writesCell img slice axisIdx o)
    · rw [if_neg Bool.false_ne_true, Bool.or_false]
      by_cases hcp : containsPoint (imageExtent img)
          (convertTo3D axisIdx slice c.1 c.2).1
          (convertTo3D axisIdx slice c.1 c.2).2.1
          (convertTo3D axisIdx slice c.1 c.2).2.2 = true
      · rw [hset, if_pos hcp]
        by_cases ho : (computeOffsetIndex img
            (convertTo3D axisIdx slice c.1 c.2)).toNat = o
        · have hwc : writesCell img slice axisIdx o c = true := by
            unfold writesCell
            rw [hcp, beq_iff_eq.mpr ho]
            rfl
          rw [hwc, if_pos rfl]
          subst ho
          exact Function.update_same _ _ _
        · have hwc : writesCell img slice axisIdx o c = false := by
            unfold writesCell
            rw [hcp]
            simp [ho]
          rw [hwc, if_neg Bool.false_ne_true]
          exact Function.update_noteq (fun hco => ho hco.symm) _ _
      · have hcpf : containsPoint (imageExtent img)
            (convertTo3D axisIdx slice c.1 c.2).1
            (convertTo3D axisIdx slice c.1 c.2).2.1
            (convertTo3D axisIdx slice c.1 c.2).2.2 = false :=
          Bool.not_eq_true _ |>.mp hcp
        have hwc : writesCell img slice axisIdx o c = false := by
          unfold writesCell
          rw [hcpf]
          rfl
        rw [hset, if_neg hcp, hwc, if_neg Bool.false_ne_true]
    · rw [if_pos rfl, Bool.or_true, if_pos rfl]

/-- Claim C1: when a segment group is active (its ID is truthy) and its image
exists, `rasterize(toolId, segment)` converts each of the tool's points to
index space via `image.worldToIndex`, drops the slice-axis coordinate, and
fills the polygon's cells (as chosen by the external `fillPoly`, abstracted
by `fillCells`) on the current slice of the segment-group image with the
segment's value through the grid accessor, then marks the image modified;
every voxel the fill does not reach keeps its old value, every written cell
lies on the current slice, and no other group or store field changes. -/
theorem rasterize_spec (world : RasterWorld)
    (getPoints : String → List (ℚ × ℚ × ℚ))
    (fillCells : List (ℚ × ℚ) → List (ℤ × ℤ))
    (toolId : String) (segment : SegmentMask) (slice : ℤ) (axisIdx : ℕ)
    (gid : String) (image : ImageState)
    (hgid : world.paintStore.activeSegmentGroupID = some gid)
    (hne : gid ≠ "")
    (himg : world.dataIndex gid = some image) :
    ∃ img2,
      (rasterize world getPoints fillCells toolId segment slice
          axisIdx).dataIndex gid = some img2 ∧
      img2.modifiedCount = image.modifiedCount + 1 ∧
      img2.dims = image.dims ∧
      img2.worldToIndex = image.worldToIndex ∧
      (∀ o : ℕ, img2.scalars o =
        if (fillCells ((getPoints toolId).map fun pt =>
              removeAxis axisIdx (image.worldToIndex pt))).any
            (writesCell image slice axisIdx o)
        then segment.value else image.scalars o) ∧
      (∀ a b : ℤ,
          axisCoord axisIdx (convertTo3D axisIdx slice a b) = slice) ∧
      (∀ g, g ≠ gid →
        (rasterize world getPoints fillCells toolId segment slice
            axisIdx).dataIndex g = world.dataIndex g) ∧
      (rasterize world getPoints fillCells toolId segment slice
          axisIdx).paintStore = world.paintStore := by
  have hbe : (gid == "") = false := beq_eq_false_iff_ne.mpr hne
  have hras : rasterize world getPoints fillCells toolId segment slice axisIdx
      = { world with
            dataIndex := Function.update world.dataIndex gid
              (some { fillPolyModel image slice axisIdx
                        (fillCells ((getPoints toolId).map fun pt =>
                          removeAxis axisIdx (image.worldToIndex pt)))
                        segment.value with
                      modifiedCount :=
                        (fillPolyModel image slice axisIdx
                          (fillCells ((getPoints toolId).map fun pt =>
                            removeAxis axisIdx (image.worldToIndex pt)))
                          segment.value).modifiedCount + 1 }) } := by
    unfold rasterize
    rw [hgid]
    simp only [hbe, Bool.false_eq_true, if_false, himg]
  obtain ⟨hdims, hw2i, hmod⟩ := fillPolyModel_frame slice axisIdx
    segment.value
    (fillCells ((getPoints toolId).map fun pt =>
      removeAxis axisIdx (image.worldToIndex pt))) image
  set F := fillPolyModel image slice axisIdx
    (fillCells ((getPoints toolId).map fun pt =>
      removeAxis axisIdx (image.worldToIndex pt))) segment.value with hF
  refine ⟨{ F with modifiedCount := F.modifiedCount + 1 },
    ?_, ?_, hdims, hw2i, ?_, ?_, ?_, ?_⟩
  · rw [hras]
    exact Function.update_same _ _ _
  · show F.modifiedCount + 1 = image.modifiedCount + 1
    rw [hmod]
  · intro o
    show F.scalars o = _
    rw [hF]
    exact fillPolyModel_scalars slice axisIdx segment.value _ image o
  · intro a b
    match axisIdx with
    | 0 => rfl
    | 1 => rfl
    | n + 2 => rfl
  · intro g hg
    rw [hras]
    exact Function.update_noteq hg _ _
  · rw [hras]

/-- A concrete 2x2x1 image used to witness the rasterization theorems. -/
def demoImage : ImageState :=
  { dims := (2, 2, 1)
    worldToIndex := fun p => p
    scalars := fun _ => 0
    modifiedCount := 0 }

/-- A world whose active segment group `g` carries `demoImage`. -/
def demoWorld : RasterWorld :=
  { paintStore := { activeSegmentGroupID := some "g" }
    dataIndex := fun gid => if gid = "g" then some demoImage else none }

/-- A concrete stand-in for the polygon store's point lookup. -/
def demoGetPoints : String → List (ℚ × ℚ × ℚ) := fun _ => [(0, 0, 0), (1, 1, 0)]

/-- A concrete stand-in for the external rasterizer's choice of cells. -/
def demoFillCells : List (ℚ × ℚ) → List (ℤ × ℤ) := fun _ => [(0, 0), (1, 1)]

theorem rasterize_spec_witness :
    demoWorld.paintStore.activeSegmentGroupID = some "g" ∧
    "g" ≠ "" ∧
    demoWorld.dataIndex "g" = some demoImage ∧
    (∃ img2,
      (rasterize demoWorld demoGetPoints demoFillCells "t" segA 0
          2).dataIndex "g" = some img2 ∧
      img2.modifiedCount = demoImage.modifiedCount + 1 ∧
      img2.dims = demoImage.dims ∧
      img2.worldToIndex = demoImage.worldToIndex ∧
      (∀ o : ℕ, img2.scalars o =
        if (demoFillCells ((demoGetPoints "t").map fun pt =>
              removeAxis 2 (demoImage.worldToIndex pt))).any
            (writesCell demoImage 0 2 o)
        then segA.value else demoImage.scalars o) ∧
      (∀ a b : ℤ, axisCoord 2 (convertTo3D 2 0 a b) = 0) ∧
      (∀ g, g ≠ "g" →
        (rasterize demoWorld demoGetPoints demoFillCells "t" segA 0
            2).dataIndex g = demoWorld.dataIndex g) ∧
      (rasterize demoWorld demoGetPoints demoFillCells "t" segA 0
          2).paintStore = demoWorld.paintStore) :=
  ⟨rfl, by decide, by simp [demoWorld],
    rasterize_spec demoWorld demoGetPoints demoFillCells "t" segA 0 2 "g"
      demoImage rfl (by decide) (by simp [demoWorld])⟩

/-- A world with no active segment group. -/
def offWorld : RasterWorld :=
  { paintStore := { activeSegmentGroupID := none }
    dataIndex := fun _ => none }

/-- Claim C2: every guarded operation returns early and leaves all state
unchanged when its referent is missing: `rasterize` writes to no image when
`paintStore.activeSegmentGroupID` is null or no image is registered for that
ID, and `toggleVisible(value)` / `toggleLock(value)` perform no store update
when `getSegment(groupId, value)` finds no segment. -/
theorem guards_noop_spec (world : RasterWorld)
    (getPoints : String → List (ℚ × ℚ × ℚ))
    (fillCells : List (ℚ × ℚ) → List (ℤ × ℤ))
    (toolId : String) (segment : SegmentMask) (slice : ℤ) (axisIdx : ℕ)
    (store : SegmentGroupStore) (groupId : String) (value : ℤ)
    (hras : world.paintStore.activeSegmentGroupID = none ∨
      ∃ gid, world.paintStore.activeSegmentGroupID = some gid ∧
        world.dataIndex gid = none)
    (hseg : getSegment store groupId value = none) :
    rasterize world getPoints fillCells toolId segment slice axisIdx
      = world ∧
    toggleVisible store groupId value = store ∧
    toggleLock store groupId value = store := by
  refine ⟨?_, ?_, ?_⟩
  · rcases hras with hnone | ⟨gid, hgid, hmiss⟩
    · unfold rasterize
      rw [hnone]
    · unfold rasterize
      rw [hgid]
      by_cases hb : (gid == "") = true
      · simp only [hb, if_true]
      · have hbf : (gid == "") = false := Bool.not_eq_true _ |>.mp hb
        simp only [hbf, Bool.false_eq_true, if_false, hmiss]
  · unfold toggleVisible
    rw [hseg]
  · unfold toggleLock
    rw [hseg]

theorem guards_noop_spec_witness :
    (offWorld.paintStore.activeSegmentGroupID = none ∨
      ∃ gid, offWorld.paintStore.activeSegmentGroupID = some gid ∧
        offWorld.dataIndex gid = none) ∧
    getSegment demoStore "h" 1 = none ∧
    (rasterize offWorld demoGetPoints demoFillCells "t" segA 0 2
        = offWorld ∧
     toggleVisible demoStore "h" 1 = demoStore ∧
     toggleLock demoStore "h" 1 = demoStore) :=
  ⟨Or.inl rfl, by decide,
    guards_noop_spec offWorld demoGetPoints demoFillCells "t" segA 0 2
      demoStore "h" 1 (Or.inl rfl) (by decide)⟩
